import Mathlib

set_option maxRecDepth 100000

/-!
Verification development for the dolfyn binary-index and rotation layer.

The first part embeds `src/dolfyn/io/nortek2lib.py`: the slow index
builder `create_index_slow`, the ensemble-start condenser `index2ens_pos`,
and the configuration derivation `calc_config`, over a byte-list model of
the input file.  The second part embeds `src/dolfyn/adv/rotate.py`: the
motion-correction pipeline and the frame rotations.
-/

namespace Dolfyn

/-! ## Byte-stream primitives

A raw instrument file is a list of bytes (each a `Nat` below 256).  Reads
model Python `struct.unpack` on `file.read(k)`: they fail (`none`) when any
required byte is past the end of the stream, which in the Python source
raises `struct.error`.
-/

abbrev Bytes := List Nat

/-- Byte at absolute position `p`, if present. -/
def byteAt (b : Bytes) (p : Nat) : Option Nat := b.get? p

/-- Little-endian unsigned 16-bit value at position `p` (`struct '<H'`). -/
def readU16 (b : Bytes) (p : Nat) : Option Nat :=
  match byteAt b p, byteAt b (p + 1) with
  | some x, some y => some (x + 256 * y)
  | _, _ => none

/-- Little-endian signed 16-bit value at position `p` (`struct '<h'`). -/
def readI16 (b : Bytes) (p : Nat) : Option Int :=
  (readU16 b p).map (fun v => if v < 32768 then (v : Int) else (v : Int) - 65536)

/-- Little-endian unsigned 32-bit value at position `p` (`struct '<I'`). -/
def readU32 (b : Bytes) (p : Nat) : Option Nat :=
  match byteAt b p, byteAt b (p + 1), byteAt b (p + 2), byteAt b (p + 3) with
  | some x, some y, some z, some w =>
      some (x + 256 * y + 65536 * z + 16777216 * w)
  | _, _, _, _ => none

/-! ## Record header

`hdr = struct.Struct('<BBBBhhh')` is 10 bytes; `create_index_slow` uses
`dat[2]` (the record id, byte at offset 2) and `dat[4]` (the declared
record size, the signed 16-bit field at offset 4).  `hdr.unpack` fails
unless all 10 bytes are available.
-/

structure Header where
  id : Nat
  size : Int
  deriving DecidableEq, Repr

/-- Parse the 10-byte record header at position `p`; `none` models the
`struct.error` that `create_index_slow` catches and turns into loop exit. -/
def readHeader (b : Bytes) (p : Nat) : Option Header :=
  if p + 10 ≤ b.length then
    match byteAt b (p + 2), readI16 b (p + 4) with
    | some i, some s => some ⟨i, s⟩
    | _, _ => none
  else none

/-! ## Recognized-record sub-header

For ids 21 (0x15 velocity), 24 (0x18 bottom track) and 26 (0x1A altimeter),
`create_index_slow` performs the following reads relative to the record
start `p` (header occupies `p .. p+9`):
seek 2, read config (`<H`) at `p+12`; seek 4, read `6BH` time at
`p+18 .. p+25`; seek 14, read beams/coordsys (`<H`) at `p+40`; seek 40,
read the 32-bit ensemble counter (`<I`) at `p+82`.  Any failed read is an
uncaught `struct.error` (the surrounding `try` only guards the header). -/

structure SubHdr where
  config : Nat
  yr : Nat
  mo : Nat
  dy : Nat
  hh : Nat
  mi : Nat
  ss : Nat
  usec : Nat
  beams_cy : Nat
  ens : Nat
  deriving DecidableEq, Repr

def readSub (b : Bytes) (p : Nat) : Option SubHdr :=
  match readU16 b (p + 12), byteAt b (p + 18), byteAt b (p + 19),
        byteAt b (p + 20), byteAt b (p + 21), byteAt b (p + 22),
        byteAt b (p + 23), readU16 b (p + 24), readU16 b (p + 40),
        readU32 b (p + 82) with
  | some cfg, some yr, some mo, some dy, some hh, some mi, some ss,
    some u, some bc, some e =>
      some ⟨cfg, yr, mo, dy, hh, mi, ss, u, bc, e⟩
  | _, _, _, _, _, _, _, _, _, _ => none

/-! ## Index entries and the scan loop -/

/-- One record of the index file, as packed by
`struct.pack('<QQ4H6BH', N, pos, dat[2], config, beams_cy, 0, yr, mo, dy,
h, m, s, u)` (the constant `0` padding word is omitted). -/
structure IndexEntry where
  ens : Nat
  pos : Nat
  ID : Nat
  config : Nat
  beams_cy : Nat
  yr : Nat
  mo : Nat
  dy : Nat
  hh : Nat
  mi : Nat
  ss : Nat
  usec : Nat
  deriving DecidableEq, Repr

/-- Loop state of `create_index_slow`: the file cursor (always at a record
boundary at the top of the loop), the running ensemble index `N`, the
previous recognized record's ensemble counter `last_ens` (initially `-1`),
and the entries written so far. -/
structure IdxState where
  pos : Nat
  N : Nat
  last_ens : Int
  idx : List IndexEntry
  deriving DecidableEq, Repr

/-- Outcome of one iteration of the `while` loop: `brk` is the caught
header-read failure (clean loop exit), `cont` continues with the new state,
`err` is an uncaught exception (failed sub-header read, or a seek to a
negative file position). -/
inductive StepOut where
  | brk (st : IdxState)
  | cont (st : IdxState)
  | err
  deriving DecidableEq, Repr

/-- One iteration of the `create_index_slow` loop body. -/
def step (b : Bytes) (st : IdxState) : StepOut :=
  match readHeader b st.pos with
  | none => .brk st
  | some h =>
    if h.id = 21 ∨ h.id = 24 ∨ h.id = 26 then
      match readSub b st.pos with
      | none => .err
      | some sub =>
        let N' : Nat :=
          if st.last_ens > 0 ∧ st.last_ens ≠ (sub.ens : Int) then st.N + 1 else st.N
        let entry : IndexEntry :=
          ⟨N', st.pos, h.id, sub.config, sub.beams_cy,
           sub.yr, sub.mo, sub.dy, sub.hh, sub.mi, sub.ss, sub.usec⟩
        let newPos : Int := (st.pos : Int) + 10 + h.size
        if 0 ≤ newPos then
          .cont ⟨newPos.toNat, N', (sub.ens : Int), st.idx ++ [entry]⟩
        else .err
    else
      let newPos : Int := (st.pos : Int) + 10 + h.size
      if 0 ≤ newPos then
        .cont ⟨newPos.toNat, st.N, st.last_ens, st.idx⟩
      else .err

/-- Result of running the scan: `ok` returns the written index, `err` is an
uncaught exception, `timeout` means the supplied fuel ran out (the Python
loop would still be running). -/
inductive RunResult where
  | ok (idx : List IndexEntry)
  | err
  | timeout
  deriving DecidableEq, Repr

/-- The `while N < N_ens` loop of `create_index_slow`, fueled. -/
def runIndex (b : Bytes) (nEns : Nat) : Nat → IdxState → RunResult
  | 0, _ => .timeout
  | fuel + 1, st =>
    if st.N < nEns then
      match step b st with
      | .brk s => .ok s.idx
      | .err => .err
      | .cont s => runIndex b nEns fuel s
    else .ok st.idx

/-- `create_index_slow(infile, outfile, N_ens)` over the byte model:
start at position 0 with `ens = 0`, `N = 0`, `last_ens = -1`. -/
def create_index (b : Bytes) (nEns fuel : Nat) : RunResult :=
  runIndex b nEns fuel ⟨0, 0, -1, []⟩

/-! ## `index2ens_pos` -/

/-- Tail of `index2ens_pos`: `prev` is the `ens` of the entry immediately
preceding the current one in the original list. -/
def ensPosGo (prev : Nat) : List IndexEntry → List Nat
  | [] => []
  | e :: rest =>
    if e.ens ≠ prev then e.pos :: ensPosGo e.ens rest
    else ensPosGo prev rest

/-- `index2ens_pos(index)`: keep entry 0 and every entry whose `ens` field
differs from the immediately preceding entry's (`np.diff(index['ens']) != 0`),
and return their `pos` fields. -/
def index2ens_pos (idx : List IndexEntry) : List Nat :=
  match idx with
  | [] => []
  | e :: rest => e.pos :: ensPosGo e.ens rest

/-! ## Configuration decoding (`calc_config`) -/

/-- `getbit(val, n)`. -/
def getbit (val n : Nat) : Bool := (val >>> n) % 2 = 1

/-- `headconfig_int2dict(val)`: the burst configuration bit-mask decoded
into named booleans (bits 4 and 15 unused). -/
structure HeadConfig where
  press_valid : Bool
  temp_valid : Bool
  compass_valid : Bool
  tilt_valid : Bool
  vel : Bool
  amp : Bool
  corr : Bool
  alt : Bool
  alt_raw : Bool
  ast : Bool
  echo : Bool
  ahrs : Bool
  p_gd : Bool
  std : Bool
  deriving DecidableEq, Repr

def headconfig_int2dict (val : Nat) : HeadConfig :=
  ⟨getbit val 0, getbit val 1, getbit val 2, getbit val 3,
   getbit val 5, getbit val 6, getbit val 7, getbit val 8,
   getbit val 9, getbit val 10, getbit val 11, getbit val 12,
   getbit val 13, getbit val 14⟩

/-- Result of `beams_cy_int2dict(val, id)`: for the echosounder id 28 the
value is just a cell count; otherwise the low 10 bits are the cell count,
bits 10-11 the coordinate system and bits 12+ the beam count. -/
inductive BeamsCy where
  | echo (ncells : Nat)
  | full (ncells : Nat) (cy : Option String) (nbeams : Nat)
  deriving DecidableEq, Repr

def beams_cy_int2dict (val id : Nat) : BeamsCy :=
  if id = 28 then .echo val
  else
    .full (val % 1024)
      ((([some ("ENU"), some ("XYZ"), some ("BEAM"), none]).get? ((val >>> 10) % 4)).join)
      (val >>> 12)

/-- `isuniform(vec)`: `np.all(vec == vec[0])` (callers only apply it to
non-empty vectors). -/
def isuniform (vec : List Nat) : Bool :=
  match vec with
  | [] => true
  | x :: _ => vec.all (fun y => y == x)

/-- The per-id configuration assembled by `calc_config`: the decoded
bit-mask flags, the beam/cell counts (the `cy` entry is popped at the end
of the loop body), and the raw `_config` and `_beams_cy` words. -/
structure IdConfig where
  flags : HeadConfig
  ncells : Nat
  nbeams : Nat
  rawConfig : Nat
  rawBeamsCy : Nat
  deriving DecidableEq, Repr

/-- The exception raised by `calc_config`, carrying the offending id
(the Python message embeds it as `0x{:X}`). -/
inductive CfgErr where
  | configMismatch (id : Nat)
  | beamsMismatch (id : Nat)
  deriving DecidableEq, Repr

/-- Loop body of `calc_config` for one recognized id that is present in
the index. -/
def processId (idx : List IndexEntry) (id : Nat) : Except CfgErr (Nat × IdConfig) :=
  let cfgVals := (idx.filter (fun e => e.ID == id)).map (fun e => e.config)
  let bcVals := (idx.filter (fun e => e.ID == id)).map (fun e => e.beams_cy)
  if ¬ isuniform cfgVals then .error (.configMismatch id)
  else if ¬ isuniform bcVals then .error (.beamsMismatch id)
  else
    let c0 := cfgVals.headD 0
    let b0 := bcVals.headD 0
    match beams_cy_int2dict b0 id with
    | .full nc _ nb => .ok (id, ⟨headconfig_int2dict c0, nc, nb, c0, b0⟩)
    | .echo nc => .ok (id, ⟨headconfig_int2dict c0, nc, 0, c0, b0⟩)

/-- Iteration of `calc_config` over the sorted unique ids: unrecognized ids
are skipped; since `np.unique` sorts and the recognized ids are 21 < 24 <
26, the processed ids are exactly the recognized ones present, in this
order. -/
def calcConfigGo (idx : List IndexEntry) : List Nat → Except CfgErr (List (Nat × IdConfig))
  | [] => .ok []
  | id :: rest =>
    if idx.any (fun e => e.ID == id) then
      match processId idx id with
      | .error e => .error e
      | .ok c =>
        match calcConfigGo idx rest with
        | .error e => .error e
        | .ok cs => .ok (c :: cs)
    else calcConfigGo idx rest

/-- `calc_config(index)`. -/
def calc_config (idx : List IndexEntry) : Except CfgErr (List (Nat × IdConfig)) :=
  calcConfigGo idx [21, 24, 26]

/-! ## Vectors and matrices for `src/dolfyn/adv/rotate.py`

Velocity, acceleration and angular-rate time series are arrays of shape
`(3, N)`; we model them as lists of 3-vectors over `ℝ` (one triple per
time sample), with numpy's elementwise arithmetic becoming pointwise
operations.  The single-precision casts (`astype('single')`) are
abstracted away by working over the reals.
-/

abbrev Vec3 := ℝ × ℝ × ℝ

abbrev Series := List Vec3

/-- A 3×3 matrix as a triple of rows. -/
structure Mat3 where
  r0 : Vec3
  r1 : Vec3
  r2 : Vec3

def dot3 (a b : Vec3) : ℝ := a.1 * b.1 + a.2.1 * b.2.1 + a.2.2 * b.2.2

def matvec (M : Mat3) (v : Vec3) : Vec3 := (dot3 M.r0 v, dot3 M.r1 v, dot3 M.r2 v)

def colJ (M : Mat3) (f : Vec3 → ℝ) : Vec3 := (f M.r0, f M.r1, f M.r2)

def transposeM (M : Mat3) : Mat3 :=
  ⟨colJ M (fun r => r.1), colJ M (fun r => r.2.1), colJ M (fun r => r.2.2)⟩

def matmul (A B : Mat3) : Mat3 :=
  ⟨matvec A (colJ B (fun r => r.1)), matvec A (colJ B (fun r => r.2.1)),
   matvec A (colJ B (fun r => r.2.2))⟩ |> transposeM

def diagVec (M : Mat3) : Vec3 := (M.r0.1, M.r1.2.1, M.r2.2.2)

def vadd (a b : Vec3) : Vec3 := (a.1 + b.1, a.2.1 + b.2.1, a.2.2 + b.2.2)

def vsub (a b : Vec3) : Vec3 := (a.1 - b.1, a.2.1 - b.2.1, a.2.2 - b.2.2)

def det3 (M : Mat3) : ℝ :=
  M.r0.1 * (M.r1.2.1 * M.r2.2.2 - M.r1.2.2 * M.r2.2.1)
  - M.r0.2.1 * (M.r1.1 * M.r2.2.2 - M.r1.2.2 * M.r2.1)
  + M.r0.2.2 * (M.r1.1 * M.r2.2.1 - M.r1.2.1 * M.r2.1)

def smulMat (c : ℝ) (M : Mat3) : Mat3 :=
  ⟨(c * M.r0.1, c * M.r0.2.1, c * M.r0.2.2),
   (c * M.r1.1, c * M.r1.2.1, c * M.r1.2.2),
   (c * M.r2.1, c * M.r2.2.1, c * M.r2.2.2)⟩

/-- Adjugate of a 3×3 matrix (cofactor transpose). -/
def adj3 (M : Mat3) : Mat3 :=
  ⟨(M.r1.2.1 * M.r2.2.2 - M.r1.2.2 * M.r2.2.1,
    M.r0.2.2 * M.r2.2.1 - M.r0.2.1 * M.r2.2.2,
    M.r0.2.1 * M.r1.2.2 - M.r0.2.2 * M.r1.2.1),
   (M.r1.2.2 * M.r2.1 - M.r1.1 * M.r2.2.2,
    M.r0.1 * M.r2.2.2 - M.r0.2.2 * M.r2.1,
    M.r0.2.2 * M.r1.1 - M.r0.1 * M.r1.2.2),
   (M.r1.1 * M.r2.2.1 - M.r1.2.1 * M.r2.1,
    M.r0.2.1 * M.r2.1 - M.r0.1 * M.r2.2.1,
    M.r0.1 * M.r1.2.1 - M.r0.2.1 * M.r1.1)⟩

/-- `np.linalg.inv` on a 3×3 matrix. -/
noncomputable def inv3 (M : Mat3) : Mat3 := smulMat (det3 M)⁻¹ (adj3 M)

def axis1 (s : Series) : List ℝ := s.map (fun p => p.1)

def axis2 (s : Series) : List ℝ := s.map (fun p => p.2.1)

def axis3 (s : Series) : List ℝ := s.map (fun p => p.2.2)

def zip3R (a b c : List ℝ) : Series :=
  List.zipWith (fun x yz => (x, yz)) a (List.zipWith Prod.mk b c)

/-- Apply the same time-axis transform to each of the three component rows
of a `(3, N)` array (the `for idx in range(3)` loops of the source). -/
def perAxis (g : List ℝ → List ℝ) (s : Series) : Series :=
  zip3R (g (axis1 s)) (g (axis2 s)) (g (axis3 s))

/-! ## The dataset object

The mutable `adv` data object of the source, flattened: velocity columns
(`advo._u`, rows `u`, `v`, `w`), the IMU channels, the per-sample
orientation matrices, the `props` dictionary entries used by the rotation
code (`coord_sys`, `principal_angle`, `declination`, `heading_offset`,
`body2head_rotmat`, `body2head_vec`, `inst_make`, `inst_model`), the
`config` attributes `orientation` and `coordinate_system`, the optional
`TransMatrix` from `config.head`, and the optionally-present instrument
frame copies `u_inst`/`v_inst`/`w_inst` (`has_u_inst` models
`hasattr(advo, 'u_inst')`). -/
structure ADVData where
  uvw : Series
  coord_sys : String
  principal_angle : ℝ
  declination : Option ℝ
  heading_offset : Option ℝ
  heading : List ℝ
  pitch : List ℝ
  roll : List ℝ
  config_orientation : String
  config_coordinate_system : String
  u_inst : List ℝ
  v_inst : List ℝ
  w_inst : List ℝ
  has_u_inst : Bool
  AngRt : Series
  Accel : Series
  orientmat : List Mat3
  fs : ℝ
  body2head_rotmat : Mat3
  body2head_vec : Vec3
  inst_make : Option String
  inst_model : Option String
  TransMatrix : Option Mat3
  urot : Series
  uacc : Series
  AccelStable : Series

/-! ## Principal-axes rotations -/

/-- Modelled from the spec: `U_rot` is defined on the velocity data object
outside the files under `src/`; per the spec the pair (u, v) is treated as
the complex number u+iv and multiplied by the unit phasor of the given
angle, the result split back into real and imaginary parts; the third
component (w) is not assigned by the callers and stays. -/
noncomputable def U_rot (ang : ℝ) (p : Vec3) : Vec3 :=
  (p.1 * Real.cos ang - p.2.1 * Real.sin ang,
   p.1 * Real.sin ang + p.2.1 * Real.cos ang,
   p.2.2)

/-- `earth2principal(advo)`: early return when `props['coord_sys']` is
already `'principal'`; otherwise `U_rot(-principal_angle)` and the tag is
set to `'principal'`. -/
noncomputable def earth2principal (advo : ADVData) : ADVData :=
  if advo.coord_sys = "principal" then advo
  else
    { advo with uvw := advo.uvw.map (U_rot (-advo.principal_angle)),
                coord_sys := "principal" }

/-- `principal2earth(advo)`: `U_rot(principal_angle)` unconditionally, and
the tag is set to `'earth'`. -/
noncomputable def principal2earth (advo : ADVData) : ADVData :=
  { advo with uvw := advo.uvw.map (U_rot advo.principal_angle),
              coord_sys := "earth" }

/-! ## `inst2earth` -/

/-- The warnings `inst2earth` can emit via `warnings.warn`; the only one in
the source is the missing-declination warning. -/
inductive RotWarning where
  | noDeclination
  deriving DecidableEq, Repr

/-- Circular mean `np.angle(np.exp(1j*x).mean())`. -/
noncomputable def circMean (xs : List ℝ) : ℝ :=
  Complex.arg ((xs.map (fun x => Complex.exp (x * Complex.I))).sum / (xs.length : ℂ))

/-- Earth-frame components from the combined heading-pitch-roll rotation,
exactly the three closed-form component expressions of the source (lines
216-218 of `rotate.py`). -/
noncomputable def earthComponents (rr pp hh ui vi wi : List ℝ) : Series :=
  List.zipWith
    (fun a uvw =>
      let sh := Real.sin a.2.2
      let ch := Real.cos a.2.2
      let sp := Real.sin a.2.1
      let cp := Real.cos a.2.1
      let sr := Real.sin a.1
      let cr := Real.cos a.1
      ((ch * cp) * uvw.1 + (-ch * sp * sr + sh * cr) * uvw.2.1
         + (-ch * cr * sp - sh * sr) * uvw.2.2,
       (-sh * cp) * uvw.1 + (sh * sp * sr + ch * cr) * uvw.2.1
         + (sh * cr * sp - ch * sr) * uvw.2.2,
       sp * uvw.1 + (sr * cp) * uvw.2.1 + (cp * cr) * uvw.2.2))
    (rr.zip (pp.zip hh)) (ui.zip (vi.zip wi))

/-- The roll/pitch/heading angle pipeline of `inst2earth` (lines 163-189
of `rotate.py`): degree-to-radian conversion with the −90° heading shift,
the optional circular-mean replacement, the declination and
heading-offset additions (skipped silently when the `props` key is
absent), and the `'down'`-orientation roll flip. -/
noncomputable def instAngles (advo : ADVData) (use_mean_rotation : Bool) :
    List ℝ × List ℝ × List ℝ :=
  let rr0 := advo.roll.map (fun x => x * (Real.pi / 180))
  let pp0 := advo.pitch.map (fun x => x * (Real.pi / 180))
  let hh0 := advo.heading.map (fun x => (x - 90) * (Real.pi / 180))
  let rr1 := if use_mean_rotation then List.replicate rr0.length (circMean rr0) else rr0
  let pp1 := if use_mean_rotation then List.replicate pp0.length (circMean pp0) else pp0
  let hh1 := if use_mean_rotation then List.replicate hh0.length (circMean hh0) else hh0
  let hh2 := match advo.declination with
    | some d => hh1.map (fun x => x + d * (Real.pi / 180))
    | none => hh1
  let hh3 := match advo.heading_offset with
    | some o => hh2.map (fun x => x + o * (Real.pi / 180))
    | none => hh2
  let rr2 := if advo.config_orientation = "down" then rr1.map (fun x => x + Real.pi) else rr1
  (rr2, pp1, hh3)

/-- The warnings emitted by `inst2earth`: only a missing declination warns
(a missing heading offset is skipped silently). -/
def instWarns (advo : ADVData) : List RotWarning :=
  match advo.declination with
  | some _ => []
  | none => [RotWarning.noDeclination]

/-- The tail of `inst2earth`: materialize `u_inst`/`v_inst`/`w_inst` when
the data is in XYZ coordinates and they are absent, then rotate them with
the combined matrix; accessing absent instrument-frame velocities is the
`AttributeError` (`none`). -/
noncomputable def instApply (advo : ADVData) (a : List ℝ × List ℝ × List ℝ) :
    Option ADVData :=
  let advo1 :=
    if advo.config_coordinate_system = "XYZ" ∧ advo.has_u_inst = false then
      { advo with u_inst := axis1 advo.uvw, v_inst := axis2 advo.uvw,
                  w_inst := axis3 advo.uvw, has_u_inst := true }
    else advo
  if advo1.has_u_inst then
    some { advo1 with
             uvw := earthComponents a.1 a.2.1 a.2.2 advo1.u_inst advo1.v_inst advo1.w_inst,
             coord_sys := "earth" }
  else none

/-- `inst2earth(advo, use_mean_rotation)`.  Returns the updated object
(`none` models the `AttributeError` raised when `advo.u_inst` is accessed
without existing) together with the emitted warnings. -/
noncomputable def inst2earth (advo : ADVData) (use_mean_rotation : Bool) :
    Option ADVData × List RotWarning :=
  (instApply advo (instAngles advo use_mean_rotation), instWarns advo)

/-! ## Motion correction

The scipy filter calls (`sig.butter(order, Wn)` composed with
`sig.filtfilt`) are external library collaborators; they are modelled by a
parameter `filtfilt : ℕ → ℝ → List ℝ → List ℝ` mapping a filter order and
a normalized cutoff to a time-axis signal transform. -/

/-- `cumtrapz` (scipy trapezoidal cumulative integral, length `N-1`):
running sums of `(y[i] + y[i+1]) * dx / 2`. -/
noncomputable def cumtrapzGo (dx : ℝ) : ℝ → ℝ → List ℝ → List ℝ
  | _, _, [] => []
  | prev, acc, y :: ys =>
    (acc + (prev + y) * dx / 2) :: cumtrapzGo dx y (acc + (prev + y) * dx / 2) ys

noncomputable def cumtrapzRow (dx : ℝ) : List ℝ → List ℝ
  | [] => []
  | x :: xs => cumtrapzGo dx x 0 xs

/-- `calcAccelVel(accel, samp_freq, filt_freq)`: the commented-out
acceleration high-pass leaves `hp = accel`; prepend a zero column to the
cumulative trapezoidal integral (`dx = 1/samp_freq`), subtract the
low-passed integral per axis (Butterworth order 2, cutoff
`filt_freq/(samp_freq/2)`), and negate. -/
noncomputable def calcAccelVel (filtfilt : Nat → ℝ → List ℝ → List ℝ)
    (accel : Series) (samp_freq filt_freq : ℝ) : Series :=
  let F := filtfilt 2 (filt_freq / (samp_freq / 2))
  let hp := accel
  let dat := perAxis (fun row => 0 :: cumtrapzRow (1 / samp_freq) row) hp
  let dat2 := perAxis (fun row => List.zipWith (fun a b => a - b) row (F row)) dat
  dat2.map (fun p => (-p.1, -p.2.1, -p.2.2))

/-- The probe-position argument of `calcRotationVel`: either a single
lever-arm vector or a matrix whose columns are the three probe positions
(`uerr.shape[:2] == (3,3)` in the source distinguishes them). -/
inductive ProbePos where
  | single (v : Vec3)
  | mat (m : Mat3)

/-- One column of `uerr`: `-(dz*ωy - dy*ωz, dx*ωz - dz*ωx, dy*ωx - dx*ωy)`
for a lever arm `d` and angular rate `ω` (line 47 of `rotate.py`). -/
def uerrCol (d ω : Vec3) : Vec3 :=
  (-(d.2.2 * ω.2.1 - d.2.1 * ω.2.2),
   -(d.1 * ω.2.2 - d.2.2 * ω.1),
   -(d.2.1 * ω.1 - d.1 * ω.2.1))

/-- `uerr[:,:,k]` when the positions form a matrix: column `j` is the
induced velocity of probe `j`. -/
def uerrMat (m : Mat3) (ω : Vec3) : Mat3 :=
  let c0 := uerrCol (colJ m (fun r => r.1)) ω
  let c1 := uerrCol (colJ m (fun r => r.2.1)) ω
  let c2 := uerrCol (colJ m (fun r => r.2.2)) ω
  transposeM ⟨c0, c1, c2⟩

/-- `calcRotationVel(AngRt, vec_imu2sample, transMat)`.  With a 3-column
position matrix and a transformation matrix, per sample the result is
`einsum('ij,kj->ik', T, diagonal(einsum('ij,jkl->ikl', inv(T), uerr)))`,
i.e. `T · diag(T⁻¹ · uerr_k)`; otherwise (single lever arm, or matrix
without `transMat`) the first position column is used directly
(`uerr[:,0,:]`). -/
noncomputable def calcRotationVel (angRt : Series) (pos : ProbePos)
    (transMat : Option Mat3) : Series :=
  match pos, transMat with
  | .mat m, some t =>
    angRt.map (fun ω => matvec t (diagVec (matmul (inv3 t) (uerrMat m ω))))
  | .mat m, none => angRt.map (fun ω => uerrCol (colJ m (fun r => r.1)) ω)
  | .single d, _ => angRt.map (fun ω => uerrCol d ω)

/-- `correct_motion.__init__` parameters. -/
structure MotionCorrector where
  accel_filtfreq : ℝ
  accelvel_filtfreq : ℝ
  separate_probes : Bool

/-- `correct_motion._calcProbePos(advo)`: the Nortek VECTOR probe geometry
(radius 0.076 m, probes at 0°/120°/240°, −30° below the x-y plane) rotated
into the body frame and offset by `body2head_vec`, only when
`separate_probes` is requested for that instrument; otherwise the shared
`body2head_vec`. -/
noncomputable def probeGeom : Mat3 :=
  let r : ℝ := 0.076
  let phi : ℝ := -30 * Real.pi / 180
  let t0 : ℝ := 0 * Real.pi / 180
  let t1 : ℝ := 120 * Real.pi / 180
  let t2 : ℝ := 240 * Real.pi / 180
  ⟨(r * Real.cos t0, r * Real.cos t1, r * Real.cos t2),
   (r * Real.sin t0, r * Real.sin t1, r * Real.sin t2),
   (r * Real.tan phi, r * Real.tan phi, r * Real.tan phi)⟩

/-- Add a vector to every column of a matrix (`+ vec[:, None]`). -/
def matAddCols (m : Mat3) (v : Vec3) : Mat3 :=
  ⟨(m.r0.1 + v.1, m.r0.2.1 + v.1, m.r0.2.2 + v.1),
   (m.r1.1 + v.2.1, m.r1.2.1 + v.2.1, m.r1.2.2 + v.2.1),
   (m.r2.1 + v.2.2, m.r2.2.1 + v.2.2, m.r2.2.2 + v.2.2)⟩

noncomputable def calcProbePos (advo : ADVData) (sep : Bool) : ProbePos :=
  if advo.inst_make = some ("Nortek") ∧ advo.inst_model = some ("VECTOR") ∧ sep = true then
    .mat (matAddCols (matmul (transposeM advo.body2head_rotmat) probeGeom)
            advo.body2head_vec)
  else .single advo.body2head_vec

/-- `correct_motion._calcRotVel(advo)`. -/
noncomputable def calcRotVel (mc : MotionCorrector) (advo : ADVData) : Series :=
  let pos := calcProbePos advo mc.separate_probes
  if mc.separate_probes then
    (calcRotationVel (advo.AngRt.map (matvec advo.body2head_rotmat))
        (match pos with
         | .single v => .single (matvec advo.body2head_rotmat v)
         | .mat m => .mat (matmul advo.body2head_rotmat m))
        advo.TransMatrix).map (matvec (transposeM advo.body2head_rotmat))
  else calcRotationVel advo.AngRt pos none

/-- `correct_motion.__call__(advo)`: rotate the velocity into the body
frame with `body2head_rotmat.T`, compute the rotation-induced velocity,
the stabilized acceleration (rotate to earth per sample, low-pass order 1
at `accel_filtfreq/(fs/2)`, rotate back), the translational velocity from
`calcAccelVel` on `Accel - AccelStable`, and subtract
`urot + uacc` from the body-frame velocity. -/
noncomputable def correct_motion_call (filtfilt : Nat → ℝ → List ℝ → List ℝ)
    (mc : MotionCorrector) (advo : ADVData) : ADVData :=
  let advo1 := { advo with uvw := advo.uvw.map (matvec (transposeM advo.body2head_rotmat)) }
  let advo2 := { advo1 with urot := calcRotVel mc advo1 }
  let acctmp := List.zipWith (fun o a => matvec (transposeM o) a) advo2.orientmat advo2.Accel
  let acctmpF := perAxis (filtfilt 1 (mc.accel_filtfreq / (advo2.fs / 2))) acctmp
  let advo3 := { advo2 with AccelStable := List.zipWith matvec advo2.orientmat acctmpF }
  let advo4 := { advo3 with
    uacc := calcAccelVel filtfilt (List.zipWith vsub advo3.Accel advo3.AccelStable)
              advo3.fs mc.accelvel_filtfreq }
  { advo4 with uvw := List.zipWith vsub advo4.uvw (List.zipWith vadd advo4.urot advo4.uacc) }

/-! ## Specification-side definitions

These follow the spec's wording (not the implementation) and are compared
with the embedded code by the refinement theorems below. -/

/-- The distinct values of a list, in order of first appearance. -/
def distinctVals : List Nat → List Nat
  | [] => []
  | v :: l => v :: (distinctVals l).filter (fun x => x ≠ v)

/-- Byte offset of the first index entry bearing the ensemble number `v`. -/
def firstPos (idx : List IndexEntry) (v : Nat) : Option Nat :=
  (idx.find? (fun e => e.ens == v)).map (fun e => e.pos)

/-- Spec reading of `condense_to_ensemble_starts`: the byte offsets of the
first entry bearing each distinct ensemble number, in order. -/
def ensStartsSpec (idx : List IndexEntry) : List (Option Nat) :=
  (distinctVals (idx.map (fun e => e.ens))).map (firstPos idx)

/-- Every signed 16-bit record-size field parse in the stream is
nonnegative (sufficient for each loop iteration to advance the cursor). -/
def goodSizes (b : Bytes) : Bool :=
  (List.range b.length).all (fun p =>
    match readI16 b (p + 4) with
    | some v => decide (0 ≤ v)
    | none => true)

/-! ## Concrete instrument streams

Each stream is a list of raw bytes; unset positions are zero.  `sA`/`sB`
are the spec's Scenario A/B: two velocity records (id 21 = 0x15) of
declared size 30 at offsets 0 and 40 with identical (zero) configuration
words; their 32-bit ensemble counters sit at offsets 82 and 122.  `sC1`
gives the two records the counters 0 and 1; `sC2` declares a record size
of 0; `sC5` declares sizes 4 and -24 (bytes 0xE8 0xFF) so that the scan
jumps backwards while the two records' counters (at offsets 82 and 96)
keep changing. -/

def sA : Bytes :=
  ((((((List.replicate 126 0).set 2 21).set 4 30).set 82 5).set 42 21).set 44 30).set 122 5

def sB : Bytes :=
  ((((((List.replicate 126 0).set 2 21).set 4 30).set 82 5).set 42 21).set 44 30).set 122 6

def sC1 : Bytes :=
  (((((List.replicate 126 0).set 2 21).set 4 30).set 42 21).set 44 30).set 122 1

def sC2 : Bytes := (List.replicate 96 0).set 2 21

def sC5 : Bytes :=
  (((((((List.replicate 100 0).set 2 21).set 4 4).set 16 21).set 18 232).set 19 255).set 82 1).set 96 2

/-- The index entries produced by scanning Scenario A. -/
def idxA : List IndexEntry :=
  [⟨0, 0, 21, 0, 0, 0, 0, 0, 0, 0, 0, 0⟩, ⟨0, 40, 21, 0, 0, 0, 0, 0, 0, 0, 0, 0⟩]

/-- The index entries produced by scanning Scenario B. -/
def idxB : List IndexEntry :=
  [⟨0, 0, 21, 0, 0, 0, 0, 0, 0, 0, 0, 0⟩, ⟨1, 40, 21, 0, 0, 0, 0, 0, 0, 0, 0, 0⟩]

/-! ## Claim C1 -/

/-- One scan-loop iteration on a recognized record, with the successor
state written out explicitly. -/
theorem step_recognized (b : Bytes) (st : IdxState) (h : Header) (sub : SubHdr)
    (hh : readHeader b st.pos = some h)
    (hid : h.id = 21 ∨ h.id = 24 ∨ h.id = 26)
    (hs : readSub b st.pos = some sub)
    (hp : 0 ≤ (st.pos : Int) + 10 + h.size) :
    step b st = .cont
      ⟨((st.pos : Int) + 10 + h.size).toNat,
       (if st.last_ens > 0 ∧ st.last_ens ≠ (sub.ens : Int) then st.N + 1 else st.N),
       (sub.ens : Int),
       st.idx ++
        [⟨(if st.last_ens > 0 ∧ st.last_ens ≠ (sub.ens : Int) then st.N + 1 else st.N),
          st.pos, h.id, sub.config, sub.beams_cy,
          sub.yr, sub.mo, sub.dy, sub.hh, sub.mi, sub.ss, sub.usec⟩]⟩ := by
  simp only [step, hh, hs]
  rw [if_pos hid, if_pos hp]

/-- C1, amended: when a recognized record is scanned, the running ensemble
index is incremented before the entry is written exactly when the previous
recognized record's counter was positive *and* differs from this record's
counter; when the counters are equal, or the previous counter was zero (or
no recognized record has been seen, `last_ens = -1`), the index written is
unchanged.  The entry written carries the updated index. -/
theorem c1_amended (b : Bytes) (st : IdxState) (h : Header) (sub : SubHdr)
    (hh : readHeader b st.pos = some h)
    (hid : h.id = 21 ∨ h.id = 24 ∨ h.id = 26)
    (hs : readSub b st.pos = some sub)
    (hp : 0 ≤ (st.pos : Int) + 10 + h.size) :
    ∃ st', step b st = .cont st' ∧
      (st.last_ens > 0 ∧ st.last_ens ≠ (sub.ens : Int) → st'.N = st.N + 1) ∧
      (st.last_ens ≤ 0 ∨ st.last_ens = (sub.ens : Int) → st'.N = st.N) ∧
      st'.idx = st.idx ++
        [⟨st'.N, st.pos, h.id, sub.config, sub.beams_cy,
          sub.yr, sub.mo, sub.dy, sub.hh, sub.mi, sub.ss, sub.usec⟩] := by
  have hstep := step_recognized b st h sub hh hid hs hp
  refine ⟨_, hstep, ?_, ?_, rfl⟩
  · intro hc
    simp only [if_pos hc]
  · intro hc
    rw [if_neg]
    rintro ⟨hgt, hne⟩
    rcases hc with hle | heq
    · omega
    · exact hne heq

/-- C1 witness: in Scenario B, scanning the second record (previous
counter 5, this counter 6) increments the running index to 1. -/
theorem c1_witness : ∃ st', step sB ⟨40, 0, 5, []⟩ = .cont st' ∧ st'.N = 0 + 1 := by
  obtain ⟨st', hs, h1, _, _⟩ :=
    c1_amended sB ⟨40, 0, 5, []⟩ ⟨21, 30⟩ ⟨0, 0, 0, 0, 0, 0, 0, 0, 0, 6⟩
      rfl (Or.inl rfl) rfl (by decide)
  exact ⟨st', hs, h1 ⟨by decide, by decide⟩⟩

/-- C1 counterexample: two recognized velocity records whose 32-bit
ensemble counters differ (0 at offset 0, 1 at offset 40); the claim as
stated requires the second entry's ensemble index to be the first's plus
one, but both entries are written with index 0 (the source only increments
when `last_ens > 0`). -/
theorem c1_counterexample :
    create_index sC1 100 20 =
      .ok [⟨0, 0, 21, 0, 0, 0, 0, 0, 0, 0, 0, 0⟩,
           ⟨0, 40, 21, 0, 0, 0, 0, 0, 0, 0, 0, 0⟩] ∧
    readU32 sC1 (0 + 82) = some 0 ∧ readU32 sC1 (40 + 82) = some 1 ∧
    (0 : Nat) ≠ 0 + 1 := by
  exact ⟨by decide, by decide, by decide, by decide⟩

/-! ## Claim C2 -/

/-- C2, amended: the index build performs no record-size validation and
raises no corruption error: a recognized record whose declared size is 0
is still indexed (one entry, at the record's offset, is appended) and the
scan simply continues at the following header position `pos + 10`. -/
theorem c2_amended (b : Bytes) (st : IdxState) (h : Header) (sub : SubHdr)
    (hh : readHeader b st.pos = some h)
    (hid : h.id = 21 ∨ h.id = 24 ∨ h.id = 26)
    (hsize : h.size = 0)
    (hs : readSub b st.pos = some sub) :
    ∃ st', step b st = .cont st' ∧ st'.pos = st.pos + 10 ∧
      st'.idx.length = st.idx.length + 1 ∧
      st'.idx.getLast? = some
        ⟨st'.N, st.pos, h.id, sub.config, sub.beams_cy,
         sub.yr, sub.mo, sub.dy, sub.hh, sub.mi, sub.ss, sub.usec⟩ := by
  have hstep := step_recognized b st h sub hh hid hs (by omega)
  refine ⟨_, hstep, ?_, ?_, ?_⟩
  · dsimp only
    rw [hsize]
    omega
  · simp
  · simp

/-- C2 witness: the stream `sC2` starts with a recognized record declaring
size 0; one scan step indexes it and moves the cursor to offset 10. -/
theorem c2_witness :
    ∃ st', step sC2 ⟨0, 0, -1, []⟩ = .cont st' ∧ st'.pos = 0 + 10 ∧
      st'.idx.length = 0 + 1 ∧
      st'.idx.getLast? = some ⟨st'.N, 0, 21, 0, 0, 0, 0, 0, 0, 0, 0, 0⟩ := by
  have := c2_amended sC2 ⟨0, 0, -1, []⟩ ⟨21, 0⟩ ⟨0, 0, 0, 0, 0, 0, 0, 0, 0, 0⟩
    rfl (Or.inl rfl) rfl rfl
  simpa using this

/-- C2 counterexample: the full index build on `sC2` (whose first record
declares record size 0, smaller than the 10-byte header) completes with
`.ok` and the record indexed — no `CorruptRecordError` aborts the build. -/
theorem c2_counterexample :
    readHeader sC2 0 = some ⟨21, 0⟩ ∧
    create_index sC2 100 20 = .ok [⟨0, 0, 21, 0, 0, 0, 0, 0, 0, 0, 0, 0⟩] := by
  exact ⟨by decide, by decide⟩

/-! ## Claim C5: scan-loop invariants -/

/-- A `brk` outcome returns the state unchanged (the caught header-read
failure exits the loop without touching the written index). -/
theorem step_brk_eq (b : Bytes) (st s : IdxState) (h : step b st = .brk s) :
    s = st := by
  unfold step at h
  cases hh : readHeader b st.pos <;> rw [hh] at h
  · cases h; rfl
  · rename_i hd
    dsimp only at h
    by_cases hid : hd.id = 21 ∨ hd.id = 24 ∨ hd.id = 26
    · rw [if_pos hid] at h
      cases hs : readSub b st.pos <;> rw [hs] at h
      · cases h
      · dsimp only at h
        split at h <;> cases h
    · rw [if_neg hid] at h
      split at h <;> cases h

/-- Inversion of a `cont` outcome: the header parsed, the cursor moved to
`pos + 10 + size`, and the index either stayed (unrecognized id) or gained
exactly the scanned record's entry at its tail. -/
theorem step_cont_cases (b : Bytes) (st st' : IdxState) (h : step b st = .cont st') :
    ∃ hd, readHeader b st.pos = some hd ∧ 0 ≤ (st.pos : Int) + 10 + hd.size ∧
      st'.pos = ((st.pos : Int) + 10 + hd.size).toNat ∧
      ((st'.idx = st.idx ∧ st'.N = st.N) ∨
        (st.N ≤ st'.N ∧
          ∃ sub, readSub b st.pos = some sub ∧
            st'.idx = st.idx ++
              [⟨st'.N, st.pos, hd.id, sub.config, sub.beams_cy,
                sub.yr, sub.mo, sub.dy, sub.hh, sub.mi, sub.ss, sub.usec⟩])) := by
  unfold step at h
  cases hh : readHeader b st.pos <;> rw [hh] at h
  · cases h
  · rename_i hd
    dsimp only at h
    refine ⟨hd, rfl, ?_⟩
    by_cases hid : hd.id = 21 ∨ hd.id = 24 ∨ hd.id = 26
    · rw [if_pos hid] at h
      cases hs : readSub b st.pos <;> rw [hs] at h
      · cases h
      · rename_i sub
        dsimp only at h
        split at h
        · cases h
          refine ⟨by assumption, rfl, Or.inr ⟨?_, sub, rfl, rfl⟩⟩
          dsimp only
          split <;> omega
        · cases h
    · rw [if_neg hid] at h
      split at h
      · cases h
        exact ⟨by assumption, rfl, Or.inl ⟨rfl, rfl⟩⟩
      · cases h

/-- Under `goodSizes`, every successfully parsed header has a nonnegative
declared size. -/
theorem header_size_nonneg (b : Bytes) (p : Nat) (hd : Header)
    (hh : readHeader b p = some hd) (hg : goodSizes b = true) : 0 ≤ hd.size := by
  rw [readHeader] at hh
  by_cases hl : p + 10 ≤ b.length
  · rw [if_pos hl] at hh
    cases hi : byteAt b (p + 2) <;> rw [hi] at hh
    · cases hh
    · cases hsz : readI16 b (p + 4) <;> rw [hsz] at hh
      · cases hh
      · rename_i v
        cases hh
        have hmem : p ∈ List.range b.length := List.mem_range.mpr (by omega)
        have := List.all_eq_true.mp hg p hmem
        rw [hsz] at this
        exact of_decide_eq_true this
  · rw [if_neg hl] at hh
    cases hh

/-- Loop invariant for `create_index_slow`: the written entries carry
non-decreasing (bounded by `N`) ensemble indices, and — whenever every
record-size field in the stream is nonnegative — strictly increasing
offsets all below the cursor. -/
def IdxInv (b : Bytes) (st : IdxState) : Prop :=
  (List.Pairwise (fun e1 e2 => e1.ens ≤ e2.ens) st.idx ∧
    ∀ e ∈ st.idx, e.ens ≤ st.N) ∧
  (goodSizes b = true →
    List.Pairwise (fun e1 e2 => e1.pos < e2.pos) st.idx ∧
      ∀ e ∈ st.idx, e.pos < st.pos)

theorem step_inv (b : Bytes) (st st' : IdxState) (hinv : IdxInv b st)
    (h : step b st = .cont st') : IdxInv b st' := by
  obtain ⟨hd, hh, hpos, hpos', hcase⟩ := step_cont_cases b st st' h
  obtain ⟨⟨hens, hensN⟩, hposInv⟩ := hinv
  rcases hcase with ⟨hidx, hN⟩ | ⟨hN, sub, hs, hidx⟩
  · constructor
    · rw [hidx, hN]
      exact ⟨hens, hensN⟩
    · intro hg
      obtain ⟨hpw, hlt⟩ := hposInv hg
      have hsz := header_size_nonneg b st.pos hd hh hg
      rw [hidx]
      refine ⟨hpw, fun e he => ?_⟩
      have := hlt e he
      omega
  · constructor
    · rw [hidx]
      constructor
      · rw [List.pairwise_append]
        refine ⟨hens, List.pairwise_singleton _ _, fun e1 he1 e2 he2 => ?_⟩
        rw [List.mem_singleton] at he2
        subst he2
        have := hensN e1 he1
        dsimp only
        omega
      · intro e he
        rw [List.mem_append] at he
        rcases he with he | he
        · have := hensN e he
          omega
        · rw [List.mem_singleton] at he
          subst he
          rfl
    · intro hg
      obtain ⟨hpw, hlt⟩ := hposInv hg
      have hsz := header_size_nonneg b st.pos hd hh hg
      rw [hidx]
      constructor
      · rw [List.pairwise_append]
        refine ⟨hpw, List.pairwise_singleton _ _, fun e1 he1 e2 he2 => ?_⟩
        rw [List.mem_singleton] at he2
        subst he2
        exact hlt e1 he1
      · intro e he
        rw [List.mem_append] at he
        rcases he with he | he
        · have := hlt e he
          omega
        · rw [List.mem_singleton] at he
          subst he
          dsimp only
          omega

theorem runIndex_inv (b : Bytes) (nEns : Nat) :
    ∀ fuel (st : IdxState) (idx : List IndexEntry), IdxInv b st →
      runIndex b nEns fuel st = .ok idx →
      List.Pairwise (fun e1 e2 => e1.ens ≤ e2.ens) idx ∧
        (goodSizes b = true → List.Pairwise (fun e1 e2 => e1.pos < e2.pos) idx) := by
  intro fuel
  induction fuel with
  | zero => intro st idx _ h; cases h
  | succ n ih =>
    intro st idx hinv h
    rw [runIndex] at h
    by_cases hN : st.N < nEns
    · rw [if_pos hN] at h
      cases hs : step b st <;> rw [hs] at h
      · rename_i s
        have := step_brk_eq b st s hs
        subst this
        cases h
        exact ⟨hinv.1.1, fun hg => (hinv.2 hg).1⟩
      · exact ih _ idx (step_inv b st _ hinv hs) h
      · cases h
    · rw [if_neg hN] at h
      cases h
      exact ⟨hinv.1.1, fun hg => (hinv.2 hg).1⟩

/-- C5, amended: in every index the build returns, the ensemble numbers of
adjacent entries are monotonically non-decreasing; the byte offsets are
strictly increasing provided every record-size field of the stream parses
as nonnegative (with a negative declared size the cursor can move
backwards and offsets can repeat or decrease). -/
theorem c5_amended (b : Bytes) (nEns fuel : Nat) (idx : List IndexEntry)
    (hrun : create_index b nEns fuel = .ok idx) :
    List.Pairwise (fun e1 e2 => e1.ens ≤ e2.ens) idx ∧
      (goodSizes b = true → List.Pairwise (fun e1 e2 => e1.pos < e2.pos) idx) := by
  refine runIndex_inv b nEns fuel ⟨0, 0, -1, []⟩ idx ?_ hrun
  exact ⟨⟨List.Pairwise.nil, by simp⟩, fun _ => ⟨List.Pairwise.nil, by simp⟩⟩

/-- C5 witness: Scenario A's stream has nonnegative sizes everywhere; its
index has non-decreasing ensemble numbers and strictly increasing
offsets. -/
theorem c5_witness :
    create_index sA 100 20 = .ok idxA ∧ goodSizes sA = true ∧
      List.Pairwise (fun e1 e2 => e1.ens ≤ e2.ens) idxA ∧
      List.Pairwise (fun e1 e2 => e1.pos < e2.pos) idxA := by
  have h1 : create_index sA 100 20 = .ok idxA := by decide
  have h2 : goodSizes sA = true := by decide
  obtain ⟨ha, hb⟩ := c5_amended sA 100 20 idxA h1
  exact ⟨h1, h2, ha, hb h2⟩

/-- C5 counterexample: a stream declaring record sizes 4 and −24 produces
an index (the build terminates normally via the `N_ens` bound) whose byte
offsets are 0, 14, 0, 14 — not strictly increasing, refuting the claim for
arbitrary built indices. -/
theorem c5_counterexample :
    create_index sC5 3 10 =
      .ok [⟨0, 0, 21, 0, 0, 232, 255, 0, 0, 0, 0, 0⟩,
           ⟨1, 14, 21, 0, 0, 0, 0, 0, 0, 0, 0, 0⟩,
           ⟨2, 0, 21, 0, 0, 232, 255, 0, 0, 0, 0, 0⟩,
           ⟨3, 14, 21, 0, 0, 0, 0, 0, 0, 0, 0, 0⟩] ∧
    ¬ List.Pairwise (fun e1 e2 => e1.pos < e2.pos)
        [⟨0, 0, 21, 0, 0, 232, 255, 0, 0, 0, 0, 0⟩,
         ⟨1, 14, 21, 0, 0, 0, 0, 0, 0, 0, 0, 0⟩,
         (⟨2, 0, 21, 0, 0, 232, 255, 0, 0, 0, 0, 0⟩ : IndexEntry),
         ⟨3, 14, 21, 0, 0, 0, 0, 0, 0, 0, 0, 0⟩] := by
  exact ⟨by decide, by decide⟩

/-! ## Claim C6: condensing the index to ensemble starts -/

theorem distinctVals_subset (l : List Nat) : ∀ v ∈ distinctVals l, v ∈ l := by
  induction l with
  | nil => intro v hv; cases hv
  | cons x xs ih =>
    intro v hv
    rw [distinctVals] at hv
    rcases List.mem_cons.mp hv with h | h
    · exact h ▸ List.mem_cons_self x xs
    · exact List.mem_cons_of_mem x (ih v (List.mem_of_mem_filter h))

/-- `find?` skips an entry whose ensemble number is not the sought one. -/
theorem firstPos_cons_ne (e : IndexEntry) (r : List IndexEntry) (v : Nat)
    (hne : e.ens ≠ v) : firstPos (e :: r) v = firstPos r v := by
  rw [firstPos, firstPos, List.find?_cons_of_neg]
  simpa using hne

/-- Diff-based selection agrees with "first entry of each distinct value"
on the sorted tail: `prev` is the preceding original entry's ensemble
number, which bounds the tail from below. -/
theorem ensPosGo_spec (rest : List IndexEntry) (prev : Nat)
    (hpw : List.Pairwise (· ≤ ·) (rest.map (fun e => e.ens)))
    (hlb : ∀ v ∈ rest.map (fun e => e.ens), prev ≤ v) :
    (ensPosGo prev rest).map some =
      ((distinctVals (rest.map (fun e => e.ens))).filter (fun v => v ≠ prev)).map
        (firstPos rest) := by
  induction rest generalizing prev with
  | nil => rfl
  | cons e r ih =>
    have hpw' : List.Pairwise (· ≤ ·) (r.map (fun e => e.ens)) :=
      (List.pairwise_cons.mp (by simpa using hpw)).2
    have hhead : ∀ v ∈ r.map (fun e => e.ens), e.ens ≤ v :=
      (List.pairwise_cons.mp (by simpa using hpw)).1
    by_cases heq : e.ens = prev
    · rw [ensPosGo, if_neg (by simpa using heq)]
      have hrhs :
          ((distinctVals ((e :: r).map (fun x => x.ens))).filter (fun v => v ≠ prev)).map
              (firstPos (e :: r)) =
            ((distinctVals (r.map (fun x => x.ens))).filter (fun v => v ≠ prev)).map
              (firstPos r) := by
        rw [List.map_cons, distinctVals, heq]
        rw [List.filter_cons_of_neg (by simp)]
        rw [List.filter_filter]
        have hfe : (fun v => decide (v ≠ prev) && decide (v ≠ prev)) =
            (fun v => decide (v ≠ prev)) := by
          funext v
          exact Bool.and_self _
        rw [hfe]
        refine List.map_congr_left (fun v hv => ?_)
        have hvne : v ≠ prev := by
          have := List.of_mem_filter hv
          simpa using this
        exact firstPos_cons_ne e r v (by omega)
      rw [hrhs]
      exact ih prev hpw' (fun v hv => hlb v (by simp [hv]))
    · rw [ensPosGo, if_pos (by simpa using heq)]
      have hprevle : prev ≤ e.ens := hlb e.ens (by simp)
      have hrhs :
          ((distinctVals ((e :: r).map (fun x => x.ens))).filter (fun v => v ≠ prev)).map
              (firstPos (e :: r)) =
            some e.pos ::
              ((distinctVals (r.map (fun x => x.ens))).filter (fun v => v ≠ e.ens)).map
                (firstPos r) := by
        rw [List.map_cons, distinctVals]
        rw [List.filter_cons_of_pos (by simpa using heq)]
        rw [List.map_cons]
        congr 1
        · rw [firstPos, List.find?_cons_of_pos _ (by simp)]
          rfl
        · rw [List.filter_filter]
          have hkeep :
              (distinctVals (r.map (fun x => x.ens))).filter
                  (fun v => decide (v ≠ prev) && decide (v ≠ e.ens)) =
                (distinctVals (r.map (fun x => x.ens))).filter (fun v => v ≠ e.ens) := by
            refine List.filter_congr (fun v hv => ?_)
            have hge : e.ens ≤ v :=
              hhead v (distinctVals_subset _ v hv)
            by_cases hvee : v = e.ens
            · simp [hvee]
            · have : v ≠ prev := by omega
              simp [hvee, this]
          rw [hkeep]
          refine List.map_congr_left (fun v hv => ?_)
          have hvne : v ≠ e.ens := by
            have := List.of_mem_filter hv
            simpa using this
          exact firstPos_cons_ne e r v (fun hc => hvne hc.symm)
      rw [hrhs, List.map_cons]
      congr 1
      exact ih e.ens hpw' hhead

/-- C6: on an index whose ensemble numbers are non-decreasing,
`index2ens_pos` returns exactly the byte offset of the first entry bearing
each distinct ensemble number, in order. -/
theorem c6_condense (idx : List IndexEntry)
    (h : List.Chain' (· ≤ ·) (idx.map (fun e => e.ens))) :
    (index2ens_pos idx).map some = ensStartsSpec idx := by
  cases idx with
  | nil => rfl
  | cons e r =>
    have hpw : List.Pairwise (· ≤ ·) ((e :: r).map (fun x => x.ens)) :=
      List.chain'_iff_pairwise.mp h
    have hpw' : List.Pairwise (· ≤ ·) (r.map (fun x => x.ens)) :=
      (List.pairwise_cons.mp (by simpa using hpw)).2
    have hhead : ∀ v ∈ r.map (fun x => x.ens), e.ens ≤ v :=
      (List.pairwise_cons.mp (by simpa using hpw)).1
    have hspec : ensStartsSpec (e :: r) =
        firstPos (e :: r) e.ens ::
          ((distinctVals (r.map (fun x => x.ens))).filter (fun v => v ≠ e.ens)).map
            (firstPos (e :: r)) := by
      rw [ensStartsSpec, List.map_cons, distinctVals, List.map_cons]
    rw [index2ens_pos, hspec, List.map_cons]
    congr 1
    · rw [firstPos, List.find?_cons_of_pos _ (by simp)]
      rfl
    · rw [ensPosGo_spec r e.ens hpw' hhead]
      refine List.map_congr_left (fun v hv => ?_)
      have hvne : v ≠ e.ens := by
        have := List.of_mem_filter hv
        simpa using this
      exact (firstPos_cons_ne e r v (fun hc => hvne hc.symm)).symm

/-- C6 witness: Scenario A (counters 5, 5 at offsets 0, 40) condenses to
[0]; Scenario B (counters 5, 6) condenses to [0, 40]; both indexes satisfy
the non-decreasing hypothesis and agree with the first-occurrence spec. -/
theorem c6_witness :
    create_index sA 100 20 = .ok idxA ∧ index2ens_pos idxA = [0] ∧
    create_index sB 100 20 = .ok idxB ∧ index2ens_pos idxB = [0, 40] ∧
    (index2ens_pos idxA).map some = ensStartsSpec idxA ∧
    (index2ens_pos idxB).map some = ensStartsSpec idxB := by
  refine ⟨by decide, by decide, by decide, by decide, ?_, ?_⟩
  · exact c6_condense idxA (by simp [idxA])
  · exact c6_condense idxB (by simp [idxB])

/-! ## Claim C4: configuration uniformity -/

/-- Spec-side decoded configuration for one id: the decoded bit-mask and
beam/cell fields of the first index entry bearing that id. -/
def decodedFor (idx : List IndexEntry) (id : Nat) : IdConfig :=
  let c0 := ((idx.find? (fun e => e.ID == id)).map (fun e => e.config)).getD 0
  let b0 := ((idx.find? (fun e => e.ID == id)).map (fun e => e.beams_cy)).getD 0
  match beams_cy_int2dict b0 id with
  | .full nc _ nb => ⟨headconfig_int2dict c0, nc, nb, c0, b0⟩
  | .echo nc => ⟨headconfig_int2dict c0, nc, 0, c0, b0⟩

/-- Spec-side result of `derive_config` on a uniform index: each
recognized id present, with its decoded configuration. -/
def expectedConfigs (idx : List IndexEntry) : List (Nat × IdConfig) :=
  ([21, 24, 26].filter (fun id => idx.any (fun e => e.ID == id))).map
    (fun id => (id, decodedFor idx id))

theorem isuniform_of_all_eq (v : List Nat) (h : ∀ x ∈ v, ∀ y ∈ v, x = y) :
    isuniform v = true := by
  cases v with
  | nil => rfl
  | cons x xs =>
    rw [isuniform, List.all_eq_true]
    intro y hy
    exact beq_iff_eq.mpr (h y hy x (List.mem_cons_self x xs))

theorem isuniform_all (v : List Nat) (h : isuniform v = true) :
    ∀ x ∈ v, ∀ y ∈ v, x = y := by
  cases v with
  | nil => intro x hx; cases hx
  | cons a xs =>
    rw [isuniform, List.all_eq_true] at h
    intro x hx y hy
    have hxa := beq_iff_eq.mp (h x hx)
    have hya := beq_iff_eq.mp (h y hy)
    omega

theorem isuniform_false (v : List Nat) (h : isuniform v = false) :
    ∃ x ∈ v, ∃ y ∈ v, x ≠ y := by
  by_contra hc
  push_neg at hc
  rw [isuniform_of_all_eq v hc] at h
  cases h

/-- Members of the projected filtered value lists come from entries with
the given id. -/
theorem mem_filtered_config (idx : List IndexEntry) (id : Nat) (x : Nat)
    (hx : x ∈ (idx.filter (fun e => e.ID == id)).map (fun e => e.config)) :
    ∃ f ∈ idx, f.ID = id ∧ f.config = x := by
  obtain ⟨f, hf, hfx⟩ := List.mem_map.mp hx
  exact ⟨f, List.mem_of_mem_filter hf, by simpa using List.of_mem_filter hf, hfx⟩

theorem mem_filtered_beams (idx : List IndexEntry) (id : Nat) (x : Nat)
    (hx : x ∈ (idx.filter (fun e => e.ID == id)).map (fun e => e.beams_cy)) :
    ∃ f ∈ idx, f.ID = id ∧ f.beams_cy = x := by
  obtain ⟨f, hf, hfx⟩ := List.mem_map.mp hx
  exact ⟨f, List.mem_of_mem_filter hf, by simpa using List.of_mem_filter hf, hfx⟩

/-- With uniform values for an id that is present, the loop body succeeds
and decodes the first entry's values. -/
theorem processId_uniform (idx : List IndexEntry) (id : Nat)
    (hpres : idx.any (fun e => e.ID == id) = true)
    (huni : ∀ e1 ∈ idx, ∀ e2 ∈ idx, e1.ID = id → e2.ID = id →
      e1.config = e2.config ∧ e1.beams_cy = e2.beams_cy) :
    processId idx id = .ok (id, decodedFor idx id) := by
  obtain ⟨g, hgfind⟩ : ∃ g, idx.find? (fun e => e.ID == id) = some g := by
    have hsome : (idx.find? (fun e => e.ID == id)).isSome := by
      rw [List.find?_isSome]
      simpa using hpres
    exact Option.isSome_iff_exists.mp hsome
  have hgmem : g ∈ idx := List.mem_of_find?_eq_some hgfind
  have hgid : g.ID = id := by simpa using List.find?_some hgfind
  have huc : isuniform ((idx.filter (fun e => e.ID == id)).map (fun e => e.config)) = true := by
    refine isuniform_of_all_eq _ (fun x hx y hy => ?_)
    obtain ⟨f1, hf1, hid1, hv1⟩ := mem_filtered_config idx id x hx
    obtain ⟨f2, hf2, hid2, hv2⟩ := mem_filtered_config idx id y hy
    rw [← hv1, ← hv2]
    exact (huni f1 hf1 f2 hf2 hid1 hid2).1
  have hub : isuniform ((idx.filter (fun e => e.ID == id)).map (fun e => e.beams_cy)) = true := by
    refine isuniform_of_all_eq _ (fun x hx y hy => ?_)
    obtain ⟨f1, hf1, hid1, hv1⟩ := mem_filtered_beams idx id x hx
    obtain ⟨f2, hf2, hid2, hv2⟩ := mem_filtered_beams idx id y hy
    rw [← hv1, ← hv2]
    exact (huni f1 hf1 f2 hf2 hid1 hid2).2
  cases hfil : idx.filter (fun e => e.ID == id) with
  | nil =>
    exfalso
    obtain ⟨e, he, hei⟩ := List.any_eq_true.mp hpres
    have : e ∈ idx.filter (fun e => e.ID == id) := List.mem_filter.mpr ⟨he, hei⟩
    rw [hfil] at this
    cases this
  | cons f0 fr =>
    have hf0m : f0 ∈ idx.filter (fun e => e.ID == id) := by
      rw [hfil]; exact List.mem_cons_self f0 fr
    have hf0 : f0 ∈ idx := List.mem_of_mem_filter hf0m
    have hf0id : f0.ID = id := by simpa using List.of_mem_filter hf0m
    have hc : ((idx.filter (fun e => e.ID == id)).map (fun e => e.config)).headD 0 =
        g.config := by
      rw [hfil]
      simpa using (huni f0 hf0 g hgmem hf0id hgid).1
    have hb : ((idx.filter (fun e => e.ID == id)).map (fun e => e.beams_cy)).headD 0 =
        g.beams_cy := by
      rw [hfil]
      simpa using (huni f0 hf0 g hgmem hf0id hgid).2
    rw [processId]
    rw [if_neg (by simp [huc]), if_neg (by simp [hub])]
    simp only [hc, hb]
    simp only [decodedFor, hgfind, Option.map_some', Option.getD_some]
    cases beams_cy_int2dict g.beams_cy id <;> rfl

/-- A loop-body failure names a genuinely offending id. -/
theorem processId_error_shape (idx : List IndexEntry) (id : Nat) (err : CfgErr)
    (h : processId idx id = .error err) :
    (err = .configMismatch id ∨ err = .beamsMismatch id) ∧
      ∃ f1 ∈ idx, ∃ f2 ∈ idx, f1.ID = id ∧ f2.ID = id ∧
        (f1.config ≠ f2.config ∨ f1.beams_cy ≠ f2.beams_cy) := by
  rw [processId] at h
  by_cases h1 :
      isuniform ((idx.filter (fun e => e.ID == id)).map (fun e => e.config)) = true
  · rw [if_neg (by simp [h1])] at h
    by_cases h2 :
        isuniform ((idx.filter (fun e => e.ID == id)).map (fun e => e.beams_cy)) = true
    · rw [if_neg (by simp [h2])] at h
      dsimp only at h
      split at h <;> cases h
    · rw [if_pos h2] at h
      cases h
      refine ⟨Or.inr rfl, ?_⟩
      obtain ⟨x, hx, y, hy, hxy⟩ :=
        isuniform_false _ (by simpa using h2)
      obtain ⟨f1, hf1, hid1, hv1⟩ := mem_filtered_beams idx id x hx
      obtain ⟨f2, hf2, hid2, hv2⟩ := mem_filtered_beams idx id y hy
      exact ⟨f1, hf1, f2, hf2, hid1, hid2, Or.inr (by omega)⟩
  · rw [if_pos h1] at h
    cases h
    refine ⟨Or.inl rfl, ?_⟩
    obtain ⟨x, hx, y, hy, hxy⟩ :=
      isuniform_false _ (by simpa using h1)
    obtain ⟨f1, hf1, hid1, hv1⟩ := mem_filtered_config idx id x hx
    obtain ⟨f2, hf2, hid2, hv2⟩ := mem_filtered_config idx id y hy
    exact ⟨f1, hf1, f2, hf2, hid1, hid2, Or.inl (by omega)⟩

/-- A failing `calc_config` traversal pinpoints a present id whose loop
body failed. -/
theorem calcConfigGo_error (idx : List IndexEntry) (ids : List Nat) (err : CfgErr)
    (h : calcConfigGo idx ids = .error err) :
    ∃ id ∈ ids, idx.any (fun e => e.ID == id) = true ∧
      processId idx id = .error err := by
  induction ids with
  | nil => cases h
  | cons id rest ih =>
    rw [calcConfigGo] at h
    by_cases hpres : idx.any (fun e => e.ID == id) = true
    · rw [if_pos hpres] at h
      cases hp : processId idx id <;> rw [hp] at h
      · cases h
        exact ⟨id, List.mem_cons_self id rest, hpres, hp⟩
      · cases hgo : calcConfigGo idx rest <;> rw [hgo] at h
        · cases h
          obtain ⟨id', hid', hpres', hp'⟩ := ih hgo
          exact ⟨id', List.mem_cons_of_mem id hid', hpres', hp'⟩
        · cases h
    · rw [if_neg hpres] at h
      obtain ⟨id', hid', hpres', hp'⟩ := ih h
      exact ⟨id', List.mem_cons_of_mem id hid', hpres', hp'⟩

/-- A successful traversal means every present id's loop body succeeded. -/
theorem calcConfigGo_ok_processId (idx : List IndexEntry) (ids : List Nat) :
    ∀ cfgs : List (Nat × IdConfig), calcConfigGo idx ids = .ok cfgs →
      ∀ id, id ∈ ids → idx.any (fun e => e.ID == id) = true →
        ∃ p, processId idx id = .ok p := by
  induction ids with
  | nil => intro cfgs h id hid; cases hid
  | cons id0 rest ih =>
    intro cfgs h id hid hpres
    rw [calcConfigGo] at h
    rcases List.mem_cons.mp hid with heq | hmem
    · subst heq
      rw [if_pos hpres] at h
      cases hp : processId idx id <;> rw [hp] at h
      · cases h
      · exact ⟨_, rfl⟩
    · by_cases hpres0 : idx.any (fun e => e.ID == id0) = true
      · rw [if_pos hpres0] at h
        cases hp : processId idx id0 <;> rw [hp] at h
        · cases h
        · dsimp only at h
          cases hgo : calcConfigGo idx rest <;> rw [hgo] at h
          · cases h
          · cases h
            exact ih _ hgo id hmem hpres
      · rw [if_neg hpres0] at h
        exact ih _ h id hmem hpres

/-- A successful loop body implies the id's values were uniform. -/
theorem processId_ok_uniform (idx : List IndexEntry) (id : Nat)
    (p : Nat × IdConfig) (h : processId idx id = .ok p) :
    ∀ e1 ∈ idx, ∀ e2 ∈ idx, e1.ID = id → e2.ID = id →
      e1.config = e2.config ∧ e1.beams_cy = e2.beams_cy := by
  rw [processId] at h
  by_cases h1 :
      isuniform ((idx.filter (fun e => e.ID == id)).map (fun e => e.config)) = true
  · by_cases h2 :
        isuniform ((idx.filter (fun e => e.ID == id)).map (fun e => e.beams_cy)) = true
    · intro e1 he1 e2 he2 hid1 hid2
      have hm1c : e1.config ∈ (idx.filter (fun e => e.ID == id)).map (fun e => e.config) :=
        List.mem_map.mpr ⟨e1, List.mem_filter.mpr ⟨he1, by simpa using hid1⟩, rfl⟩
      have hm2c : e2.config ∈ (idx.filter (fun e => e.ID == id)).map (fun e => e.config) :=
        List.mem_map.mpr ⟨e2, List.mem_filter.mpr ⟨he2, by simpa using hid2⟩, rfl⟩
      have hm1b : e1.beams_cy ∈ (idx.filter (fun e => e.ID == id)).map (fun e => e.beams_cy) :=
        List.mem_map.mpr ⟨e1, List.mem_filter.mpr ⟨he1, by simpa using hid1⟩, rfl⟩
      have hm2b : e2.beams_cy ∈ (idx.filter (fun e => e.ID == id)).map (fun e => e.beams_cy) :=
        List.mem_map.mpr ⟨e2, List.mem_filter.mpr ⟨he2, by simpa using hid2⟩, rfl⟩
      exact ⟨isuniform_all _ h1 _ hm1c _ hm2c, isuniform_all _ h2 _ hm1b _ hm2b⟩
    · rw [if_neg (by simp [h1]), if_pos h2] at h
      cases h
  · rw [if_pos h1] at h
    cases h

/-- The traversal on uniform data returns the decoded configuration of
every recognized id present. -/
theorem calcConfigGo_ok_of_uniform (idx : List IndexEntry) (ids : List Nat)
    (h : ∀ id ∈ ids, ∀ e1 ∈ idx, ∀ e2 ∈ idx, e1.ID = id → e2.ID = id →
      e1.config = e2.config ∧ e1.beams_cy = e2.beams_cy) :
    calcConfigGo idx ids =
      .ok ((ids.filter (fun id => idx.any (fun e => e.ID == id))).map
        (fun id => (id, decodedFor idx id))) := by
  induction ids with
  | nil => rfl
  | cons id rest ih =>
    rw [calcConfigGo]
    by_cases hpres : idx.any (fun e => e.ID == id) = true
    · rw [if_pos hpres]
      rw [processId_uniform idx id hpres (h id (List.mem_cons_self id rest))]
      rw [ih (fun i hi => h i (List.mem_cons_of_mem id hi))]
      simp [List.filter_cons, hpres]
    · rw [if_neg hpres]
      rw [ih (fun i hi => h i (List.mem_cons_of_mem id hi))]
      simp [List.filter_cons, hpres]

/-- C4: `calc_config` returns the decoded per-id configuration when every
recognized id's entries carry identical `config` and `beams_cy` words, and
raises an error naming an offending id whenever two entries of a
recognized id differ in either word. -/
theorem c4_config_uniformity (idx : List IndexEntry) :
    ((∀ e1 ∈ idx, ∀ e2 ∈ idx, e1.ID = e2.ID →
        (e1.ID = 21 ∨ e1.ID = 24 ∨ e1.ID = 26) →
        e1.config = e2.config ∧ e1.beams_cy = e2.beams_cy) →
      calc_config idx = .ok (expectedConfigs idx)) ∧
    ((∃ e1 ∈ idx, ∃ e2 ∈ idx, e1.ID = e2.ID ∧
        (e1.ID = 21 ∨ e1.ID = 24 ∨ e1.ID = 26) ∧
        (e1.config ≠ e2.config ∨ e1.beams_cy ≠ e2.beams_cy)) →
      ∃ id, (calc_config idx = .error (.configMismatch id) ∨
              calc_config idx = .error (.beamsMismatch id)) ∧
        ∃ f1 ∈ idx, ∃ f2 ∈ idx, f1.ID = id ∧ f2.ID = id ∧
          (f1.config ≠ f2.config ∨ f1.beams_cy ≠ f2.beams_cy)) := by
  constructor
  · intro huni
    rw [calc_config, calcConfigGo_ok_of_uniform idx [21, 24, 26] ?_]
    · rfl
    · intro id hid e1 he1 e2 he2 hid1 hid2
      refine huni e1 he1 e2 he2 (by omega) ?_
      fin_cases hid <;> omega
  · rintro ⟨e1, he1, e2, he2, hids, hrec, hdiff⟩
    cases hcc : calc_config idx with
    | ok cfgs =>
      exfalso
      have hpres : idx.any (fun e => e.ID == e1.ID) = true :=
        List.any_eq_true.mpr ⟨e1, he1, by simp⟩
      have hmem : e1.ID ∈ ([21, 24, 26] : List Nat) := by
        rcases hrec with h | h | h <;> simp [h]
      obtain ⟨p, hp⟩ := calcConfigGo_ok_processId idx [21, 24, 26] cfgs hcc e1.ID hmem hpres
      have := processId_ok_uniform idx e1.ID p hp e1 he1 e2 he2 rfl hids.symm
      rcases hdiff with h | h
      · exact h this.1
      · exact h this.2
    | error err =>
      obtain ⟨id, _, _, hperr⟩ := calcConfigGo_error idx [21, 24, 26] err hcc
      obtain ⟨hshape, f1, hf1, f2, hf2, hfid1, hfid2, hfdiff⟩ :=
        processId_error_shape idx id err hperr
      refine ⟨id, ?_, f1, hf1, f2, hf2, hfid1, hfid2, hfdiff⟩
      rcases hshape with h | h
      · exact Or.inl (by rw [h])
      · exact Or.inr (by rw [h])

/-- An index with two velocity entries whose configuration words differ. -/
def idxMis : List IndexEntry :=
  [⟨0, 0, 21, 7, 0, 0, 0, 0, 0, 0, 0, 0⟩, ⟨0, 40, 21, 9, 0, 0, 0, 0, 0, 0, 0, 0⟩]

/-- C4 witness: Scenario A's uniform index decodes without error; an index
with two id-21 entries of differing config words produces an error naming
an offending id. -/
theorem c4_witness :
    calc_config idxA = .ok (expectedConfigs idxA) ∧
    (∃ id, (calc_config idxMis = .error (.configMismatch id) ∨
            calc_config idxMis = .error (.beamsMismatch id)) ∧
      ∃ f1 ∈ idxMis, ∃ f2 ∈ idxMis, f1.ID = id ∧ f2.ID = id ∧
        (f1.config ≠ f2.config ∨ f1.beams_cy ≠ f2.beams_cy)) := by
  constructor
  · exact (c4_config_uniformity idxA).1 (by decide)
  · exact (c4_config_uniformity idxMis).2 (by decide)

/-! ## Claims C3, C7, C10: principal-axes rotations -/

/-- A concrete dataset used to instantiate the rotation theorems. -/
def adv0 : ADVData :=
  { uvw := [(1, 0, 0)], coord_sys := "earth", principal_angle := 0,
    declination := none, heading_offset := none,
    heading := [0], pitch := [0], roll := [0],
    config_orientation := "up", config_coordinate_system := "XYZ",
    u_inst := [], v_inst := [], w_inst := [], has_u_inst := false,
    AngRt := [], Accel := [], orientmat := [], fs := 1,
    body2head_rotmat := ⟨(1, 0, 0), (0, 1, 0), (0, 0, 1)⟩,
    body2head_vec := (0, 0, 0),
    inst_make := none, inst_model := none, TransMatrix := none,
    urot := [], uacc := [], AccelStable := [] }

/-- `U_rot` leaves the third (w) component alone, so does any rotation
built from it. -/
theorem axis3_U_rot (a : ℝ) (l : Series) : axis3 (l.map (U_rot a)) = axis3 l := by
  rw [axis3, axis3, List.map_map]
  rfl

/-- C3, amended: `earth2principal` is a no-op (data and tag unchanged)
when the tag is already `'principal'`; `principal2earth`, however, never
inspects the tag — its output velocity is the same whatever the tag is —
so with the tag already `'earth'` it still applies the rotation. -/
theorem c3_amended (advo : ADVData) (s : String) :
    (advo.coord_sys = "principal" → earth2principal advo = advo) ∧
    (principal2earth advo).uvw = (principal2earth { advo with coord_sys := s }).uvw := by
  constructor
  · intro h
    rw [earth2principal, if_pos h]
  · rfl

/-- C3 witness: a dataset already tagged `'principal'` passes through
`earth2principal` untouched, and `principal2earth` ignores the tag. -/
theorem c3_witness :
    ({ adv0 with coord_sys := "principal" } : ADVData).coord_sys = "principal" ∧
    earth2principal { adv0 with coord_sys := "principal" } =
      { adv0 with coord_sys := "principal" } ∧
    (principal2earth { adv0 with coord_sys := "principal" }).uvw =
      (principal2earth { adv0 with coord_sys := "x" }).uvw := by
  refine ⟨rfl, (c3_amended { adv0 with coord_sys := "principal" } "x").1 rfl, ?_⟩
  exact (c3_amended { adv0 with coord_sys := "principal" } "x").2

/-- C3 counterexample: a dataset whose tag is already `'earth'` (the
target frame of `principal2earth`) with principal angle π: the rotation is
applied anyway, changing u from 1 to −1 — refuting the claimed no-op for
`principal2earth`. -/
theorem c3_counterexample :
    ({ adv0 with principal_angle := Real.pi } : ADVData).coord_sys = "earth" ∧
    (principal2earth { adv0 with principal_angle := Real.pi }).uvw ≠
      ({ adv0 with principal_angle := Real.pi } : ADVData).uvw := by
  refine ⟨rfl, ?_⟩
  have hval : (principal2earth { adv0 with principal_angle := Real.pi }).uvw =
      [((-1 : ℝ), 0, 0)] := by
    simp [principal2earth, adv0, U_rot]
  rw [hval]
  intro h
  have h1 : (-1 : ℝ) = 1 := by
    have := congrArg (fun l : Series => (l.headD (0, 0, 0)).1) h
    simpa [adv0] using this
  norm_num at h1

/-- C7: starting from a dataset not already in principal coordinates,
rotating to principal axes and back with the same `principal_angle` in
[-π, π] restores the velocity exactly (multiplication by the phasors of
the negated and the positive angle). -/
theorem c7_roundtrip (advo : ADVData)
    (h : advo.coord_sys ≠ "principal")
    (h1 : -Real.pi ≤ advo.principal_angle) (h2 : advo.principal_angle ≤ Real.pi) :
    (principal2earth (earth2principal advo)).uvw = advo.uvw := by
  rw [earth2principal, if_neg h, principal2earth]
  dsimp only
  rw [List.map_map]
  have hpt : ∀ p ∈ advo.uvw,
      (U_rot advo.principal_angle ∘ U_rot (-advo.principal_angle)) p = id p := by
    intro p _
    obtain ⟨u, v, w⟩ := p
    have hsc := Real.sin_sq_add_cos_sq advo.principal_angle
    simp only [Function.comp_apply, U_rot, Real.cos_neg, Real.sin_neg, id_eq]
    refine Prod.ext ?_ (Prod.ext ?_ rfl)
    · dsimp only
      linear_combination u * hsc
    · dsimp only
      linear_combination v * hsc
  rw [List.map_congr_left hpt, List.map_id]

/-- C7 witness: round trip at angle 0 on the concrete dataset. -/
theorem c7_witness :
    (adv0.coord_sys ≠ "principal" ∧
      -Real.pi ≤ adv0.principal_angle ∧ adv0.principal_angle ≤ Real.pi) ∧
    (principal2earth (earth2principal adv0)).uvw = adv0.uvw := by
  have hpi := Real.pi_pos
  have hne : adv0.coord_sys ≠ "principal" := by decide
  have hlo : -Real.pi ≤ adv0.principal_angle := by
    show -Real.pi ≤ 0
    linarith
  have hhi : adv0.principal_angle ≤ Real.pi := by
    show (0 : ℝ) ≤ Real.pi
    linarith
  exact ⟨⟨hne, hlo, hhi⟩, c7_roundtrip adv0 hne hlo hhi⟩

/-- C10: both principal-axes rotations can change only the velocity
columns and the coordinate-system tag (every other field is carried over
unchanged), and within the velocity they leave the w components intact. -/
theorem c10_only_uv_and_tag (advo : ADVData) :
    earth2principal advo =
      { advo with uvw := (earth2principal advo).uvw,
                  coord_sys := (earth2principal advo).coord_sys } ∧
    axis3 (earth2principal advo).uvw = axis3 advo.uvw ∧
    principal2earth advo =
      { advo with uvw := (principal2earth advo).uvw,
                  coord_sys := (principal2earth advo).coord_sys } ∧
    axis3 (principal2earth advo).uvw = axis3 advo.uvw := by
  refine ⟨?_, ?_, rfl, ?_⟩
  · by_cases h : advo.coord_sys = "principal"
    · rw [earth2principal, if_pos h]
    · rw [earth2principal, if_neg h]
  · by_cases h : advo.coord_sys = "principal"
    · rw [earth2principal, if_pos h]
    · rw [earth2principal, if_neg h]
      exact axis3_U_rot _ _
  · exact axis3_U_rot _ _

/-! ## Claim C9: missing declination / heading offset -/

/-- Adding a zero declination or offset term is the identity on the
heading series. -/
theorem map_add_zero_deg (l : List ℝ) :
    l.map (fun x => x + 0 * (Real.pi / 180)) = l := by
  simp

/-- With no declination stored, storing an explicit zero instead produces
the same rotation angles. -/
theorem instAngles_decl_zero (advo : ADVData) (flag : Bool)
    (hdecl : advo.declination = none) :
    instAngles { advo with declination := some 0 } flag = instAngles advo flag := by
  simp only [instAngles]
  rw [hdecl]
  simp

/-- With no heading offset stored, storing an explicit zero instead
produces the same rotation angles. -/
theorem instAngles_off_zero (advo : ADVData) (flag : Bool)
    (hoff : advo.heading_offset = none) :
    instAngles { advo with heading_offset := some 0 } flag = instAngles advo flag := by
  simp only [instAngles]
  rw [hoff]
  simp

/-- The rotated velocity produced by the tail of `inst2earth` does not
depend on the declination and heading-offset fields. -/
theorem instApply_uvw_congr (advo : ADVData) (d o : Option ℝ)
    (a : List ℝ × List ℝ × List ℝ) :
    (instApply { advo with declination := d, heading_offset := o } a).map
        (fun r => r.uvw) =
      (instApply advo a).map (fun r => r.uvw) := by
  simp only [instApply]
  by_cases h : advo.config_coordinate_system = "XYZ" ∧ advo.has_u_inst = false
  · rw [if_pos h, if_pos h]
    simp
  · rw [if_neg h, if_neg h]
    dsimp only
    by_cases h2 : advo.has_u_inst = true
    · rw [if_pos h2, if_pos h2]
      simp
    · rw [if_neg h2, if_neg h2]

/-- The tail of `inst2earth` succeeds whenever the instrument-frame
velocities exist or can be materialized from XYZ data. -/
theorem instApply_succeeds (advo : ADVData) (a : List ℝ × List ℝ × List ℝ)
    (h : advo.has_u_inst = true ∨ advo.config_coordinate_system = "XYZ") :
    (instApply advo a).isSome = true := by
  simp only [instApply]
  by_cases hc : advo.config_coordinate_system = "XYZ" ∧ advo.has_u_inst = false
  · rw [if_pos hc]
    rfl
  · rw [if_neg hc]
    have h2 : advo.has_u_inst = true := by
      rcases h with h | h
      · exact h
      · by_contra hne
        exact hc ⟨h, by simpa using hne⟩
    rw [if_pos h2]
    rfl

/-- C9, amended: when declination is absent `inst2earth` computes the same
rotated velocity as with declination 0 and emits the missing-declination
warning; when heading-offset is absent it computes the same rotated
velocity as with offset 0 but emits no additional warning (silently); in
both cases the operation does not fail (it returns a dataset whenever the
instrument-frame velocities exist or the data is in XYZ coordinates). -/
theorem c9_amended (advo : ADVData) (flag : Bool) :
    (advo.declination = none →
      ((inst2earth advo flag).1).map (fun r => r.uvw) =
        ((inst2earth { advo with declination := some 0 } flag).1).map (fun r => r.uvw) ∧
      RotWarning.noDeclination ∈ (inst2earth advo flag).2) ∧
    (advo.heading_offset = none →
      ((inst2earth advo flag).1).map (fun r => r.uvw) =
        ((inst2earth { advo with heading_offset := some 0 } flag).1).map (fun r => r.uvw) ∧
      (inst2earth { advo with heading_offset := some 0 } flag).2 =
        (inst2earth advo flag).2) ∧
    ((advo.has_u_inst = true ∨ advo.config_coordinate_system = "XYZ") →
      ((inst2earth advo flag).1).isSome = true) := by
  refine ⟨fun hdecl => ⟨?_, ?_⟩, fun hoff => ⟨?_, ?_⟩, fun hok => ?_⟩
  · rw [inst2earth, inst2earth]
    dsimp only
    rw [instAngles_decl_zero advo flag hdecl]
    exact (instApply_uvw_congr advo (some 0) advo.heading_offset _).symm
  · simp [inst2earth, instWarns, hdecl]
  · rw [inst2earth, inst2earth]
    dsimp only
    rw [instAngles_off_zero advo flag hoff]
    exact (instApply_uvw_congr advo advo.declination (some 0) _).symm
  · rfl
  · rw [inst2earth]
    exact instApply_succeeds advo _ hok

/-- C9 witness: the concrete dataset (XYZ coordinates, declination and
heading offset both absent) rotates as with declination 0, warns about the
declination, and does not fail. -/
theorem c9_witness :
    (adv0.declination = none ∧ adv0.heading_offset = none ∧
      adv0.config_coordinate_system = "XYZ") ∧
    ((inst2earth adv0 false).1).map (fun r => r.uvw) =
      ((inst2earth { adv0 with declination := some 0 } false).1).map (fun r => r.uvw) ∧
    RotWarning.noDeclination ∈ (inst2earth adv0 false).2 ∧
    ((inst2earth adv0 false).1).isSome = true := by
  obtain ⟨h1, _, h3⟩ := c9_amended adv0 false
  obtain ⟨ha, hb⟩ := h1 rfl
  exact ⟨⟨rfl, rfl, rfl⟩, ha, hb, h3 (Or.inr rfl)⟩

/-- C9 counterexample: with declination present but heading-offset absent,
`inst2earth` emits no warning at all, refuting the claim that an absent
heading-offset surfaces a warning. -/
theorem c9_counterexample :
    ({ adv0 with declination := some 1 } : ADVData).heading_offset = none ∧
    (inst2earth { adv0 with declination := some 1 } false).2 = [] := by
  exact ⟨rfl, rfl⟩

/-! ## Claim C8: motion correction with zero IMU channels -/

theorem matvec_zeroV (m : Mat3) : matvec m ((0 : ℝ), 0, 0) = ((0 : ℝ), 0, 0) := by
  simp [matvec, dot3]

theorem uerrCol_zeroV (d : Vec3) : uerrCol d ((0 : ℝ), 0, 0) = ((0 : ℝ), 0, 0) := by
  simp [uerrCol]

/-- The separate-probe per-sample rotation velocity vanishes at zero
angular rate, whatever the transformation matrix (no need to evaluate its
inverse: it multiplies a zero matrix). -/
theorem rotvelSampleZero (t m : Mat3) :
    matvec t (diagVec (matmul (inv3 t) (uerrMat m ((0 : ℝ), 0, 0)))) =
      ((0 : ℝ), 0, 0) := by
  simp [matvec, dot3, diagVec, matmul, uerrMat, uerrCol, transposeM, colJ]

theorem calcRotationVel_zeroRep (n : Nat) (pos : ProbePos) (tm : Option Mat3) :
    calcRotationVel (List.replicate n ((0 : ℝ), 0, 0)) pos tm =
      List.replicate n ((0 : ℝ), 0, 0) := by
  cases pos <;> cases tm <;> simp only [calcRotationVel, List.map_replicate] <;>
    first
      | exact congrArg (List.replicate n) (uerrCol_zeroV _)
      | exact congrArg (List.replicate n) (rotvelSampleZero _ _)

theorem calcRotVel_zeroRep (mc : MotionCorrector) (advo : ADVData) (n : Nat)
    (hAng : advo.AngRt = List.replicate n ((0 : ℝ), 0, 0)) :
    calcRotVel mc advo = List.replicate n ((0 : ℝ), 0, 0) := by
  rw [calcRotVel]
  cases hsep : mc.separate_probes with
  | false =>
    simp only [Bool.false_eq_true, if_false]
    rw [hAng]
    exact calcRotationVel_zeroRep n _ none
  | true =>
    simp only [if_true]
    rw [hAng, List.map_replicate, matvec_zeroV, calcRotationVel_zeroRep,
      List.map_replicate, matvec_zeroV]

theorem zipWith_right_rep {α γ : Type} (f : α → Vec3 → γ) (c : γ)
    (hf : ∀ a, f a ((0 : ℝ), 0, 0) = c) :
    ∀ (l : List α) (n : Nat),
      List.zipWith f l (List.replicate n ((0 : ℝ), 0, 0)) =
        List.replicate (min l.length n) c := by
  intro l
  induction l with
  | nil => intro n; simp
  | cons a l ih =>
    intro n
    cases n with
    | zero => simp
    | succ m =>
      rw [List.replicate_succ, List.zipWith_cons_cons, hf, ih]
      simp [Nat.succ_min_succ, List.replicate_succ]

theorem zipWith_rep_rep {α β γ : Type} (f : α → β → γ) (a : α) (b : β) :
    ∀ (n m : Nat),
      List.zipWith f (List.replicate n a) (List.replicate m b) =
        List.replicate (min n m) (f a b) := by
  intro n
  induction n with
  | zero => intro m; simp
  | succ k ih =>
    intro m
    cases m with
    | zero => simp
    | succ j =>
      rw [List.replicate_succ, List.replicate_succ, List.zipWith_cons_cons, ih]
      simp [Nat.succ_min_succ, List.replicate_succ]

theorem zip3R_rep (n : Nat) :
    zip3R (List.replicate n (0 : ℝ)) (List.replicate n 0) (List.replicate n 0) =
      List.replicate n ((0 : ℝ), 0, 0) := by
  rw [zip3R, zipWith_rep_rep, zipWith_rep_rep]
  simp

theorem perAxis_rep (g : List ℝ → List ℝ) (k m : Nat)
    (hg : g (List.replicate k 0) = List.replicate m 0) :
    perAxis g (List.replicate k ((0 : ℝ), 0, 0)) =
      List.replicate m ((0 : ℝ), 0, 0) := by
  rw [perAxis, axis1, axis2, axis3]
  simp only [List.map_replicate]
  rw [hg, zip3R_rep]

theorem cumtrapzGo_zero (dx : ℝ) :
    ∀ n : Nat, cumtrapzGo dx 0 0 (List.replicate n 0) = List.replicate n 0 := by
  intro n
  induction n with
  | zero => rfl
  | succ k ih =>
    rw [List.replicate_succ, cumtrapzGo]
    simp only [add_zero, zero_add, mul_zero, zero_mul, zero_div]
    rw [ih]

theorem cumtrapzRow_zero (dx : ℝ) (n : Nat) :
    cumtrapzRow dx (List.replicate n 0) = List.replicate (n - 1) 0 := by
  cases n with
  | zero => rfl
  | succ k =>
    rw [List.replicate_succ, cumtrapzRow, cumtrapzGo_zero]
    simp

theorem zipWith_sub_rep (n : Nat) :
    List.zipWith (fun a b => a - b) (List.replicate n (0 : ℝ))
        (List.replicate n (0 : ℝ)) = List.replicate n 0 := by
  rw [zipWith_rep_rep]
  simp

theorem calcAccelVel_zeroRep (filtfilt : Nat → ℝ → List ℝ → List ℝ)
    (hf : ∀ k w n, filtfilt k w (List.replicate n (0 : ℝ)) = List.replicate n 0)
    (n : Nat) (fs ff : ℝ) :
    calcAccelVel filtfilt (List.replicate n ((0 : ℝ), 0, 0)) fs ff =
      List.replicate (n - 1 + 1) ((0 : ℝ), 0, 0) := by
  rw [calcAccelVel]
  have hrow : ∀ dx : ℝ, (0 : ℝ) :: cumtrapzRow dx (List.replicate n 0) =
      List.replicate (n - 1 + 1) (0 : ℝ) := by
    intro dx
    rw [cumtrapzRow_zero, List.replicate_succ]
  have hdat : perAxis (fun row => 0 :: cumtrapzRow (1 / fs) row)
      (List.replicate n ((0 : ℝ), 0, 0)) =
      List.replicate (n - 1 + 1) ((0 : ℝ), 0, 0) :=
    perAxis_rep _ n (n - 1 + 1) (hrow (1 / fs))
  rw [hdat]
  have hdat2 : perAxis
      (fun row => List.zipWith (fun a b => a - b) row (filtfilt 2 (ff / (fs / 2)) row))
      (List.replicate (n - 1 + 1) ((0 : ℝ), 0, 0)) =
      List.replicate (n - 1 + 1) ((0 : ℝ), 0, 0) := by
    refine perAxis_rep _ _ _ ?_
    rw [hf, zipWith_sub_rep]
  rw [hdat2, List.map_replicate]
  norm_num

theorem zipWith_vsub_zero (l : Series) :
    ∀ n : Nat, l.length = n →
      List.zipWith vsub l (List.replicate n ((0 : ℝ), 0, 0)) = l := by
  induction l with
  | nil => intro n _; simp
  | cons a t ih =>
    intro n hn
    cases n with
    | zero => cases hn
    | succ m =>
      rw [List.replicate_succ, List.zipWith_cons_cons, ih m (by simpa using hn)]
      simp [vsub]

/-- C8: on a dataset whose angular-rate and acceleration channels are
identically zero, `correct_motion.__call__` produces zero rotation-induced
and zero translational-induced velocity, and the corrected velocity equals
the input velocity rotated into the body frame by `body2head_rotmat.T`. -/
theorem c8_zero_motion (filtfilt : Nat → ℝ → List ℝ → List ℝ)
    (mc : MotionCorrector) (advo : ADVData)
    (hf : ∀ k w n, filtfilt k w (List.replicate n (0 : ℝ)) = List.replicate n 0)
    (hA : advo.AngRt = List.replicate advo.uvw.length ((0 : ℝ), 0, 0))
    (hB : advo.Accel = List.replicate advo.uvw.length ((0 : ℝ), 0, 0))
    (hO : advo.orientmat.length = advo.uvw.length) :
    (correct_motion_call filtfilt mc advo).urot =
      List.replicate advo.uvw.length ((0 : ℝ), 0, 0) ∧
    (correct_motion_call filtfilt mc advo).uacc =
      List.replicate (advo.uvw.length - 1 + 1) ((0 : ℝ), 0, 0) ∧
    (correct_motion_call filtfilt mc advo).uvw =
      advo.uvw.map (matvec (transposeM advo.body2head_rotmat)) := by
  have hurot : calcRotVel mc
      { advo with uvw := advo.uvw.map (matvec (transposeM advo.body2head_rotmat)) } =
      List.replicate advo.uvw.length ((0 : ℝ), 0, 0) :=
    calcRotVel_zeroRep mc _ advo.uvw.length hA
  have hacctmp : List.zipWith (fun o a => matvec (transposeM o) a)
      advo.orientmat advo.Accel =
      List.replicate advo.uvw.length ((0 : ℝ), 0, 0) := by
    rw [hB, zipWith_right_rep (fun o a => matvec (transposeM o) a) _
      (fun o => matvec_zeroV (transposeM o)), hO, Nat.min_self]
  have hstable : ∀ w : ℝ, List.zipWith matvec advo.orientmat
      (perAxis (filtfilt 1 w)
        (List.replicate advo.uvw.length ((0 : ℝ), 0, 0))) =
      List.replicate advo.uvw.length ((0 : ℝ), 0, 0) := by
    intro w
    rw [perAxis_rep _ _ _ (hf 1 w advo.uvw.length),
      zipWith_right_rep matvec _ matvec_zeroV, hO, Nat.min_self]
  have hsub : List.zipWith vsub
      (List.replicate advo.uvw.length ((0 : ℝ), 0, 0))
      (List.replicate advo.uvw.length ((0 : ℝ), 0, 0)) =
      List.replicate advo.uvw.length ((0 : ℝ), 0, 0) := by
    rw [zipWith_rep_rep, Nat.min_self]
    simp [vsub]
  simp only [correct_motion_call]
  refine ⟨?_, ?_, ?_⟩
  · exact hurot
  · rw [hacctmp, hstable, hB, hsub, calcAccelVel_zeroRep filtfilt hf]
  · rw [hurot, hacctmp, hstable, hB, hsub, calcAccelVel_zeroRep filtfilt hf]
    rw [zipWith_rep_rep]
    have hmin : min advo.uvw.length (advo.uvw.length - 1 + 1) = advo.uvw.length := by
      omega
    rw [hmin, show vadd ((0 : ℝ), 0, 0) ((0 : ℝ), 0, 0) = ((0 : ℝ), 0, 0) by simp [vadd]]
    exact zipWith_vsub_zero _ _ (by simp)

/-- A one-sample dataset with zero IMU channels and identity orientation. -/
def advM : ADVData :=
  { adv0 with AngRt := [((0 : ℝ), 0, 0)], Accel := [((0 : ℝ), 0, 0)],
              orientmat := [⟨(1, 0, 0), (0, 1, 0), (0, 0, 1)⟩] }

/-- C8 witness: motion correction of the concrete one-sample dataset with
zero angular rate and zero acceleration (identity filters, which fix the
zero signal) leaves only the body-frame rotation of the velocity. -/
theorem c8_witness :
    (advM.AngRt = List.replicate advM.uvw.length ((0 : ℝ), 0, 0) ∧
      advM.Accel = List.replicate advM.uvw.length ((0 : ℝ), 0, 0) ∧
      advM.orientmat.length = advM.uvw.length) ∧
    (correct_motion_call (fun _ _ l => l) ⟨1, 1, false⟩ advM).urot =
      List.replicate advM.uvw.length ((0 : ℝ), 0, 0) ∧
    (correct_motion_call (fun _ _ l => l) ⟨1, 1, false⟩ advM).uacc =
      List.replicate (advM.uvw.length - 1 + 1) ((0 : ℝ), 0, 0) ∧
    (correct_motion_call (fun _ _ l => l) ⟨1, 1, false⟩ advM).uvw =
      advM.uvw.map (matvec (transposeM advM.body2head_rotmat)) := by
  obtain ⟨h1, h2, h3⟩ := c8_zero_motion (fun _ _ l => l) ⟨1, 1, false⟩ advM
    (fun _ _ _ => rfl) rfl rfl rfl
  exact ⟨⟨rfl, rfl, rfl⟩, h1, h2, h3⟩

end Dolfyn
